import Mathlib

/-!
# Verification of the `fast_vector` expression-template component

This file embeds, shallowly, the `fast_vector` / `fast_vector_expr` component
(`src/include/dll/neural/recurrent_layer_impl.hpp`, lines 244-560): a
compile-time fixed-length vector with lazy expression-tree arithmetic.

Modelling choices:
* The element type is an arbitrary `α` with `Add`, `Sub`, `Mul`, `Div`
  (the C++ code is templated over `T` and uses only these operators).
* A `fast_vector`'s owned storage `_data` (a `std::array<T, Rows>`) is a
  `List α`; its length plays the role of `Rows`.
* Named vectors live in an environment `ρ : Nat → List α` mapping a vector
  name to its current storage.  An expression borrows named vectors by
  reference, which the embedding renders as the expression reading the
  environment at evaluation time, so that in-place updates of a vector are
  seen by expressions referencing it (exactly the C++ aliasing behaviour).
* The evaluation loops of the constructor/assignment from an expression,
  of `operator+=` and of `operator/=` are embedded as structural
  recursions performing the iterations `i = 0, 1, ..., k-1` in order,
  writing with `List.set` exactly as the C++ loop writes `_data[i]`.
* `operator[]` on a vector is `dbn_assert`-checked in debug builds only;
  the unguarded evaluator `Vexpr.evalE` models the release build
  (`List.getD _ _ default` in place of the unchecked read), and the guarded
  evaluator `Vexpr.evalG` models the debug build, returning `none` exactly
  when an index is out of bounds.
-/

/-- The four stateless binary operator tags of the component
(`plus_binary_op`, `minus_binary_op`, `mul_binary_op`, `div_binary_op`). -/
inductive BinOp : Type where
  | plus : BinOp
  | minus : BinOp
  | mul : BinOp
  | div : BinOp
deriving DecidableEq, Repr

/-- `plus_binary_op::apply` (source lines 531-536): `return lhs + rhs;`. -/
def plus_binary_op {α : Type} [Add α] (lhs rhs : α) : α := lhs + rhs

/-- `minus_binary_op::apply` (source lines 538-543): `return lhs - rhs;`. -/
def minus_binary_op {α : Type} [Sub α] (lhs rhs : α) : α := lhs - rhs

/-- `mul_binary_op::apply` (source lines 545-550): `return lhs * rhs;`. -/
def mul_binary_op {α : Type} [Mul α] (lhs rhs : α) : α := lhs * rhs

/-- `div_binary_op::apply` (source lines 552-557): `return lhs / rhs;`,
with no check of any kind on `rhs`. -/
def div_binary_op {α : Type} [Div α] (lhs rhs : α) : α := lhs / rhs

/-- Dispatch of a binary operator tag to its `apply` function. -/
def BinOp.apply {α : Type} [Add α] [Sub α] [Mul α] [Div α] :
    BinOp → α → α → α
  | .plus => plus_binary_op
  | .minus => minus_binary_op
  | .mul => mul_binary_op
  | .div => div_binary_op

/-- The `scalar<T>` broadcast wrapper (source lines 521-529): wraps one
value. -/
structure scalar (α : Type) : Type where
  value : α
deriving DecidableEq, Repr

/-- `scalar::operator[]` (source lines 526-528): answers any index query
with the single stored value, ignoring the index. -/
def scalar.get {α : Type} (s : scalar α) (_i : Nat) : α := s.value

/-- The lazy expression trees the component can build: a leaf is either a
borrowed named `fast_vector` (`var j`, held by reference in the C++
`fast_vector_expr`) or a `scalar` broadcast wrapper (`sc s`), and an inner
node (`fast_vector_expr<T, LE, Op, RE>`, source lines 442-519) binds a left
operand, a binary operator and a right operand.  The arithmetic producers
`+ - * /` of `fast_vector` and `fast_vector_expr` only ever build such
trees; no size constraint of any kind is imposed on the operands. -/
inductive Vexpr (α : Type) : Type where
  | var : Nat → Vexpr α
  | sc : α → Vexpr α
  | bin : BinOp → Vexpr α → Vexpr α → Vexpr α
deriving DecidableEq, Repr

/-- The names of the vectors an expression borrows (by reference). -/
def Vexpr.vars {α : Type} : Vexpr α → List Nat
  | .var j => [j]
  | .sc _ => []
  | .bin _ l r => l.vars ++ r.vars

/-- `fast_vector_expr::operator[]` (source lines 516-518) in a release
build: recursively evaluates the left and the right operand at index `i`
and applies the bound operator; a vector leaf reads its storage at `i`
(`fast_vector::operator[] const`, source lines 415-419, unchecked in
release), a scalar leaf returns its stored value.  Nothing is mutated:
the C++ accessors are `const`, so the evaluator is a pure function of the
environment. -/
def Vexpr.evalE {α : Type} [Add α] [Sub α] [Mul α] [Div α] [Inhabited α]
    (ρ : Nat → List α) : Vexpr α → Nat → α
  | .var j, i => (ρ j).getD i default
  | .sc s, i => (scalar.mk s).get i
  | .bin op l r, i => op.apply (l.evalE ρ i) (r.evalE ρ i)

/-- `fast_vector_expr::operator[]` in a debug build: every read of a
vector leaf is guarded by `dbn_assert(i < rows)` (source lines 415-419),
modelled by the bounds-checked read `(ρ j)[i]?`; an out-of-bounds read
makes the whole evaluation fail. -/
def Vexpr.evalG {α : Type} [Add α] [Sub α] [Mul α] [Div α]
    (ρ : Nat → List α) : Vexpr α → Nat → Option α
  | .var j, i => (ρ j)[i]?
  | .sc s, i => some ((scalar.mk s).get i)
  | .bin op l r, i =>
      match l.evalG ρ i, r.evalG ρ i with
      | some a, some b => some (op.apply a b)
      | _, _ => none

/-- Point update of the environment: vector `d` gets new storage `v`,
every other vector is untouched. -/
def updEnv {α : Type} (ρ : Nat → List α) (d : Nat) (v : List α) :
    Nat → List α :=
  fun j => if j = d then v else ρ j

/-- The evaluation loop of `fast_vector`'s constructor from an expression
(source lines 302-307) and of `operator=` from an expression (source lines
309-316), which are textually the same loop:
`for (i = 0; i < Rows; ++i) _data[i] = e[i];`.
`assignStep ρ d e k` is the environment after the first `k` iterations of
that loop with destination vector `d`: iteration `k` writes
`_data[k] = e[k]`, evaluating `e` against the then-current environment
(the expression may borrow the destination itself). -/
def assignStep {α : Type} [Add α] [Sub α] [Mul α] [Div α] [Inhabited α]
    (ρ : Nat → List α) (d : Nat) (e : Vexpr α) : Nat → (Nat → List α)
  | 0 => ρ
  | k + 1 =>
      let ρ' := assignStep ρ d e k
      updEnv ρ' d ((ρ' d).set k (e.evalE ρ' k))

/-- The same loop, instrumented to record the index of each iteration in
the order the iterations run. -/
def assignStepT {α : Type} [Add α] [Sub α] [Mul α] [Div α] [Inhabited α]
    (ρ : Nat → List α) (d : Nat) (e : Vexpr α) :
    Nat → ((Nat → List α) × List Nat)
  | 0 => (ρ, [])
  | k + 1 =>
      let p := assignStepT ρ d e k
      (updEnv p.1 d ((p.1 d).set k (e.evalE p.1 k)), p.2 ++ [k])

/-- Debug-build materialization of an expression into a fresh vector of
length `n`: every index `0..n-1` is evaluated through the guarded
evaluator, failing if any read is out of bounds (the `dbn_assert`). -/
def materializeG {α : Type} [Add α] [Sub α] [Mul α] [Div α]
    (ρ : Nat → List α) (e : Vexpr α) (n : Nat) : Option (List α) :=
  (List.range n).mapM (fun i => e.evalG ρ i)

/-- The evaluation loop of `fast_vector::operator+=` (source lines
342-349): `for (i = 0; i < Rows; ++i) _data[i] += rhs[i];`, with `rhs` any
indexable operand - in particular an expression borrowing the destination
vector itself, so each iteration evaluates the right-hand side against the
then-current environment, reading index `k` before writing index `k`. -/
def plusAssignStep {α : Type} [Add α] [Sub α] [Mul α] [Div α] [Inhabited α]
    (ρ : Nat → List α) (d : Nat) (e : Vexpr α) : Nat → (Nat → List α)
  | 0 => ρ
  | k + 1 =>
      let ρ' := plusAssignStep ρ d e k
      updEnv ρ' d ((ρ' d).set k ((ρ' d).getD k default + e.evalE ρ' k))

/-- `fast_vector::operator+=` run to completion over a vector of length
`n`, together with its return value: the C++ returns `*this`, i.e. a
reference to the destination vector itself, rendered as the name `d`. -/
def fvPlusAssign {α : Type} [Add α] [Sub α] [Mul α] [Div α] [Inhabited α]
    (ρ : Nat → List α) (d : Nat) (e : Vexpr α) (n : Nat) :
    Nat × (Nat → List α) :=
  (d, plusAssignStep ρ d e n)

/-- The evaluation loop of `fast_vector::operator/=` (source lines
334-340): `for (i = 0; i < Rows; ++i) _data[i] /= value;` - the right-hand
side is a single scalar `value` of type `T`, the only operand kind this
operator accepts. -/
def divAssignStep {α : Type} [Div α] [Inhabited α]
    (ρ : Nat → List α) (d : Nat) (value : α) : Nat → (Nat → List α)
  | 0 => ρ
  | k + 1 =>
      let ρ' := divAssignStep ρ d value k
      updEnv ρ' d ((ρ' d).set k (div_binary_op ((ρ' d).getD k default) value))

/-- `fast_vector::operator/=` run to completion over a vector of length
`n`, together with its return value: the C++ returns `*this`, i.e. a
reference to the destination vector itself, rendered as the name `d`. -/
def fvDivAssign {α : Type} [Div α] [Inhabited α]
    (ρ : Nat → List α) (d : Nat) (value : α) (n : Nat) :
    Nat × (Nat → List α) :=
  (d, divAssignStep ρ d value n)

/-- The kinds of right-hand operand the spec's "any indexable operand"
enumerates: a vector, a scalar, or an expression. -/
inductive OperandKind : Type where
  | vector : OperandKind
  | scalarValue : OperandKind
  | expression : OperandKind
deriving DecidableEq, Repr

/-- The overload set of `fast_vector::operator/=` in the source: exactly
one overload, `operator/=(const T& value)` (source lines 334-340), taking
a scalar value.  No overload accepts a `fast_vector` or a
`fast_vector_expr` (neither converts to `T`). -/
def divAssignAccepts : OperandKind → Bool
  | .scalarValue => true
  | .vector => false
  | .expression => false

/-- The overload set of `fast_vector::operator+=` in the source: a single
template `operator+=(RE&& rhs)` (source lines 342-349) accepting any
indexable operand. -/
def plusAssignAccepts : OperandKind → Bool
  | _ => true

/-- `fast_vector::operator=(const T& value)` (source lines 329-331) and
the fill constructor (source lines 298-300):
`std::fill(_data.begin(), _data.end(), value)` sets every slot of the
owned storage to `value`, touching nothing else. -/
def fvFillAssign {α : Type} (a : List α) (value : α) : List α :=
  a.map (fun _ => value)

/-- Guarded (Option-returning) embedding of division, as a point of
comparison for `div_binary_op`: it tests the divisor against zero and
reports failure instead of dividing.  The source has no such check. -/
def divChecked {α : Type} [Div α] [Zero α] [DecidableEq α]
    (lhs rhs : α) : Option α :=
  if rhs = 0 then none else some (div_binary_op lhs rhs)

/-- `fast_vector::operator*(T re)` (source lines 366-369): builds, with no
computation, the expression `{*this, re}` pairing the borrowed vector with
a broadcast `scalar` right operand under `mul_binary_op`. -/
def fvMulScalar {α : Type} (ja : Nat) (re : α) : Vexpr α :=
  Vexpr.bin BinOp.mul (Vexpr.var ja) (Vexpr.sc re)

/-- The `fast_vector<T, Rows>` type itself (source lines 280-440): owned
storage of exactly `Rows` elements, under the class-scope
`static_assert(Rows > 0, "Vector of size 0 do no make sense")` (source
line 282), embedded as a proof obligation that every inhabitant of the
type carries. -/
structure fast_vector (α : Type) (Rows : Nat) : Type where
  static_assert_rows : 0 < Rows
  _data : List α
  data_rows : _data.length = Rows

/-! ## Helper lemmas -/

theorem getD_set_self {α : Type} (l : List α) (k : Nat) (v d : α)
    (h : k < l.length) : (l.set k v).getD k d = v := by
  rw [List.getD_eq_getElem _ _ (by simpa using h)]
  simp

theorem getD_set_ne {α : Type} (l : List α) (k i : Nat) (v d : α)
    (h : i ≠ k) : (l.set k v).getD i d = l.getD i d := by
  rcases Nat.lt_or_ge i l.length with hi | hi
  · rw [List.getD_eq_getElem _ _ (by simpa using hi),
      List.getD_eq_getElem _ _ hi]
    exact List.getElem_set_ne (Ne.symm h) (by simpa using hi)
  · rw [List.getD_eq_default _ _ (by simpa using hi),
      List.getD_eq_default _ _ hi]

section Loops

variable {α : Type} [Add α] [Sub α] [Mul α] [Div α] [Inhabited α]

theorem evalE_congr_at (e : Vexpr α) (ρ ρ' : Nat → List α) (i : Nat)
    (h : ∀ j, (ρ j).getD i default = (ρ' j).getD i default) :
    e.evalE ρ i = e.evalE ρ' i := by
  induction e with
  | var j => simpa [Vexpr.evalE] using h j
  | sc s => rfl
  | bin op l r ihl ihr => simp [Vexpr.evalE, ihl, ihr]

theorem assignStep_other (ρ : Nat → List α) (d : Nat) (e : Vexpr α)
    (k j : Nat) (h : j ≠ d) : assignStep ρ d e k j = ρ j := by
  induction k with
  | zero => rfl
  | succ k ih => simp [assignStep, updEnv, h, ih]

theorem assignStep_length (ρ : Nat → List α) (d : Nat) (e : Vexpr α)
    (k : Nat) : (assignStep ρ d e k d).length = (ρ d).length := by
  induction k with
  | zero => rfl
  | succ k ih => simp [assignStep, updEnv, ih]

theorem assignStep_agree_ge (ρ : Nat → List α) (d : Nat) (e : Vexpr α)
    (k i : Nat) (h : k ≤ i) (j : Nat) :
    (assignStep ρ d e k j).getD i default = (ρ j).getD i default := by
  induction k with
  | zero => rfl
  | succ k ih =>
      rcases Decidable.em (j = d) with hj | hj
      · subst hj
        simp only [assignStep, updEnv, if_pos rfl, if_true]
        rw [getD_set_ne _ _ _ _ _ (by omega)]
        exact ih (by omega)
      · simp only [assignStep, updEnv, if_neg hj]
        exact ih (by omega)

theorem assignStep_getD_lt (ρ : Nat → List α) (d : Nat) (e : Vexpr α)
    (k i : Nat) (hi : i < k) (hk : k ≤ (ρ d).length) :
    (assignStep ρ d e k d).getD i default = e.evalE ρ i := by
  induction k with
  | zero => omega
  | succ k ih =>
      simp only [assignStep, updEnv, if_pos rfl, if_true]
      rcases Decidable.em (i = k) with hik | hik
      · subst hik
        rw [getD_set_self _ _ _ _ (by rw [assignStep_length]; omega)]
        exact evalE_congr_at e (assignStep ρ d e i) ρ i
          (fun j => assignStep_agree_ge ρ d e i i (le_refl i) j)
      · rw [getD_set_ne _ _ _ _ _ hik]
        exact ih (by omega) (by omega)

end Loops

section Loops2

variable {α : Type} [Add α] [Sub α] [Mul α] [Div α] [Inhabited α]

theorem plusAssignStep_other (ρ : Nat → List α) (d : Nat) (e : Vexpr α)
    (k j : Nat) (h : j ≠ d) : plusAssignStep ρ d e k j = ρ j := by
  induction k with
  | zero => rfl
  | succ k ih => simp [plusAssignStep, updEnv, h, ih]

theorem plusAssignStep_length (ρ : Nat → List α) (d : Nat) (e : Vexpr α)
    (k : Nat) : (plusAssignStep ρ d e k d).length = (ρ d).length := by
  induction k with
  | zero => rfl
  | succ k ih => simp [plusAssignStep, updEnv, ih]

theorem plusAssignStep_agree_ge (ρ : Nat → List α) (d : Nat) (e : Vexpr α)
    (k i : Nat) (h : k ≤ i) (j : Nat) :
    (plusAssignStep ρ d e k j).getD i default = (ρ j).getD i default := by
  induction k with
  | zero => rfl
  | succ k ih =>
      rcases Decidable.em (j = d) with hj | hj
      · subst hj
        simp only [plusAssignStep, updEnv, if_pos rfl, if_true]
        rw [getD_set_ne _ _ _ _ _ (by omega)]
        exact ih (by omega)
      · simp only [plusAssignStep, updEnv, if_neg hj]
        exact ih (by omega)

theorem plusAssignStep_getD_lt (ρ : Nat → List α) (d : Nat) (e : Vexpr α)
    (k i : Nat) (hi : i < k) (hk : k ≤ (ρ d).length) :
    (plusAssignStep ρ d e k d).getD i default =
      (ρ d).getD i default + e.evalE ρ i := by
  induction k with
  | zero => omega
  | succ k ih =>
      simp only [plusAssignStep, updEnv, if_pos rfl, if_true]
      rcases Decidable.em (i = k) with hik | hik
      · subst hik
        rw [getD_set_self _ _ _ _ (by rw [plusAssignStep_length]; omega)]
        rw [plusAssignStep_agree_ge ρ d e i i (le_refl i) d]
        rw [evalE_congr_at e (plusAssignStep ρ d e i) ρ i
          (fun j => plusAssignStep_agree_ge ρ d e i i (le_refl i) j)]
      · rw [getD_set_ne _ _ _ _ _ hik]
        exact ih (by omega) (by omega)

end Loops2

section Loops3

variable {α : Type} [Div α] [Inhabited α]

theorem divAssignStep_other (ρ : Nat → List α) (d : Nat) (v : α)
    (k j : Nat) (h : j ≠ d) : divAssignStep ρ d v k j = ρ j := by
  induction k with
  | zero => rfl
  | succ k ih => simp [divAssignStep, updEnv, h, ih]

theorem divAssignStep_length (ρ : Nat → List α) (d : Nat) (v : α)
    (k : Nat) : (divAssignStep ρ d v k d).length = (ρ d).length := by
  induction k with
  | zero => rfl
  | succ k ih => simp [divAssignStep, updEnv, ih]

theorem divAssignStep_agree_ge (ρ : Nat → List α) (d : Nat) (v : α)
    (k i : Nat) (h : k ≤ i) :
    (divAssignStep ρ d v k d).getD i default = (ρ d).getD i default := by
  induction k with
  | zero => rfl
  | succ k ih =>
      simp only [divAssignStep, updEnv, if_pos rfl, if_true]
      rw [getD_set_ne _ _ _ _ _ (by omega)]
      exact ih (by omega)

theorem divAssignStep_getD_lt (ρ : Nat → List α) (d : Nat) (v : α)
    (k i : Nat) (hi : i < k) (hk : k ≤ (ρ d).length) :
    (divAssignStep ρ d v k d).getD i default =
      div_binary_op ((ρ d).getD i default) v := by
  induction k with
  | zero => omega
  | succ k ih =>
      simp only [divAssignStep, updEnv, if_pos rfl, if_true]
      rcases Decidable.em (i = k) with hik | hik
      · subst hik
        rw [getD_set_self _ _ _ _ (by rw [divAssignStep_length]; omega)]
        rw [divAssignStep_agree_ge ρ d v i i (le_refl i)]
      · rw [getD_set_ne _ _ _ _ _ hik]
        exact ih (by omega) (by omega)

end Loops3

section Trace

variable {α : Type} [Add α] [Sub α] [Mul α] [Div α] [Inhabited α]

theorem assignStepT_eq (ρ : Nat → List α) (d : Nat) (e : Vexpr α)
    (k : Nat) : assignStepT ρ d e k = (assignStep ρ d e k, List.range k) := by
  induction k with
  | zero => rfl
  | succ k ih => simp [assignStepT, assignStep, ih, List.range_succ]

end Trace

section Guarded

variable {α : Type} [Add α] [Sub α] [Mul α] [Div α] [Inhabited α]

theorem evalG_eq_some (ρ : Nat → List α) (e : Vexpr α) (i : Nat)
    (h : ∀ j ∈ e.vars, i < (ρ j).length) :
    e.evalG ρ i = some (e.evalE ρ i) := by
  induction e with
  | var j =>
      have hj : i < (ρ j).length := h j (by simp [Vexpr.vars])
      simp [Vexpr.evalG, Vexpr.evalE, List.getElem?_eq_getElem hj,
        List.getD_eq_getElem _ _ hj]
  | sc s => rfl
  | bin op l r ihl ihr =>
      rw [Vexpr.evalG, ihl (fun j hj => h j (by simp [Vexpr.vars, hj])),
        ihr (fun j hj => h j (by simp [Vexpr.vars, hj]))]
      rfl

theorem mapM_eq_some_map {β : Type} (l : List Nat) (f : Nat → Option β)
    (g : Nat → β) (h : ∀ i ∈ l, f i = some (g i)) :
    l.mapM f = some (l.map g) := by
  induction l with
  | nil => rfl
  | cons a l ih =>
      rw [List.mapM_cons, h a (by simp), ih (fun i hi => h i (by simp [hi]))]
      rfl

theorem materializeG_eq_some (ρ : Nat → List α) (e : Vexpr α) (n : Nat)
    (h : ∀ j ∈ e.vars, n ≤ (ρ j).length) :
    materializeG ρ e n = some ((List.range n).map (fun i => e.evalE ρ i)) := by
  refine mapM_eq_some_map _ _ _ (fun i hi => ?_)
  refine evalG_eq_some ρ e i (fun j hj => ?_)
  have := h j hj
  have : i < n := List.mem_range.mp hi
  omega

end Guarded

/-! ## Claims -/

/-- Claim C1: constructing a vector from an expression tree, or assigning
one into a vector (the two loops are identical in the source), writes at
every index `i < N` exactly the value the expression produces at `i` when
evaluated standalone against the pre-assignment environment, and the loop
runs over the indices `0..N-1` exactly once, in order. -/
theorem C1_materialization {α : Type} [Add α] [Sub α] [Mul α] [Div α]
    [Inhabited α] (ρ : Nat → List α) (d : Nat) (e : Vexpr α) (n : Nat)
    (hn : (ρ d).length = n) :
    (∀ i, i < n → ((assignStep ρ d e n) d).getD i default = e.evalE ρ i) ∧
      (assignStepT ρ d e n).2 = List.range n := by
  constructor
  · intro i hi
    exact assignStep_getD_lt ρ d e n i hi (by omega)
  · rw [assignStepT_eq]

/-- Claim C1, witness: materializing `a + b` with `a = (1,2,3)`,
`b = (4,5,6)` into `a` writes `a[2] = (a + b)[2]`, the loop visits
`0, 1, 2` once each, and the materialized vector is `(5,7,9)`. -/
theorem C1_materialization_witness :
    ((assignStep (fun j => if j = 0 then [(1:Int),2,3] else [4,5,6]) 0
        (Vexpr.bin BinOp.plus (Vexpr.var 0) (Vexpr.var 1)) 3) 0).getD 2 default =
      Vexpr.evalE (fun j => if j = 0 then [(1:Int),2,3] else [4,5,6])
        (Vexpr.bin BinOp.plus (Vexpr.var 0) (Vexpr.var 1)) 2 ∧
      (assignStepT (fun j => if j = 0 then [(1:Int),2,3] else [4,5,6]) 0
        (Vexpr.bin BinOp.plus (Vexpr.var 0) (Vexpr.var 1)) 3).2 = List.range 3 ∧
      (assignStep (fun j => if j = 0 then [(1:Int),2,3] else [4,5,6]) 0
        (Vexpr.bin BinOp.plus (Vexpr.var 0) (Vexpr.var 1)) 3) 0 = [5,7,9] :=
  ⟨(C1_materialization _ 0 _ 3 (by decide)).1 2 (by decide),
   (C1_materialization _ 0 _ 3 (by decide)).2,
   by decide⟩

/-- Claim C2, counterexample: the producers and expression-assignment of
the source are unconstrained templates, so the program
`fast_vector<int,1> a; fast_vector<int,2> c; c = a + a;` is accepted at
compile/construction time; materializing it evaluates `a[1]` with
`a` of length 1 - an operand indexed beyond its own length, detected only
by the debug assertion (the guarded evaluation fails).  This refutes the
claim that a size mismatch cannot survive to evaluation once the program
is accepted. -/
theorem C2_counterexample :
    materializeG (fun _ => [(5:Int)])
      (Vexpr.bin BinOp.plus (Vexpr.var 0) (Vexpr.var 0)) 2 = none := by
  decide

/-- Claim C2, amended: size mismatches are not rejected at
compile/construction time - the arithmetic producers and the
expression-assignment accept operands of any lengths, and a mismatched
program indexes an operand beyond its length at evaluation time, caught
only by the debug assertion.  What does hold: a materialization of length
`N` queries every operand only at indices `0..N-1`, so whenever every
vector borrowed by the expression has length at least `N`, no operand is
ever indexed beyond its own length and the debug-guarded materialization
succeeds, agreeing index-by-index with the release evaluation. -/
theorem C2_no_oob_when_lengths_cover {α : Type} [Add α] [Sub α] [Mul α]
    [Div α] [Inhabited α] (ρ : Nat → List α) (e : Vexpr α) (n : Nat)
    (h : ∀ j ∈ e.vars, n ≤ (ρ j).length) :
    materializeG ρ e n =
      some ((List.range n).map (fun i => e.evalE ρ i)) :=
  materializeG_eq_some ρ e n h

/-- Claim C2, witness for the amended statement: materializing `a * 3`
with `a = (1,2)` of length 2 into a length-2 destination succeeds and
yields `(3,6)`. -/
theorem C2_no_oob_witness :
    materializeG (fun _ => [(1:Int),2]) (fvMulScalar 0 3) 2 =
      some ((List.range 2).map (fun i =>
        Vexpr.evalE (fun _ => [(1:Int),2]) (fvMulScalar 0 3) i)) ∧
      materializeG (fun _ => [(1:Int),2]) (fvMulScalar 0 3) 2 = some [3,6] :=
  ⟨C2_no_oob_when_lengths_cover _ _ 2 (by decide), by decide⟩

/-- Claim C3, counterexample: `fast_vector::operator/=` has exactly one
overload, taking `const T&` - a scalar value; a vector (or an expression)
is not an acceptable right-hand operand, refuting "any indexable operand:
a vector, a scalar, or an expression". -/
theorem C3_counterexample : divAssignAccepts OperandKind.vector = false :=
  rfl

/-- Claim C3, amended: the compound update `/=` accepts only a scalar
divisor; it replaces each element `i` with element `i` divided by that
scalar (the same value at every index) and returns a reference to the
updated vector itself; in particular, for `a = (4,6,8)`, after `a /= 2`
the vector equals `(2,3,4)`. -/
theorem C3_div_assign {α : Type} [Div α] [Inhabited α]
    (ρ : Nat → List α) (d : Nat) (s : α) (n : Nat)
    (hn : (ρ d).length = n) :
    (∀ i, i < n → ((fvDivAssign ρ d s n).2 d).getD i default =
        div_binary_op ((ρ d).getD i default) s) ∧
      (fvDivAssign ρ d s n).1 = d ∧
      (fvDivAssign (fun _ => [(4:Int),6,8]) 0 2 3).2 0 = [2,3,4] := by
  refine ⟨fun i hi => divAssignStep_getD_lt ρ d s n i hi (by omega),
    rfl, by decide⟩

/-- Claim C3, witness for the amended statement: with `a = (4,6,8)` and
divisor `2`, element 1 becomes `6 / 2` and the operation returns the
reference to `a`. -/
theorem C3_div_assign_witness :
    ((fvDivAssign (fun _ => [(4:Int),6,8]) 0 2 3).2 0).getD 1 default =
      div_binary_op (((fun _ => [(4:Int),6,8]) 0).getD 1 default) 2 ∧
      (fvDivAssign (fun _ => [(4:Int),6,8]) 0 2 3).1 = 0 :=
  ⟨(C3_div_assign _ 0 2 3 (by decide)).1 1 (by decide),
   (C3_div_assign _ 0 2 3 (by decide)).2.1⟩

/-- Claim C4: for equal-length vectors `a` and `b`, after `a += b` every
index `i` of `a` holds the pre-update `a[i]` plus `b[i]`, and the
operation returns a reference to `a` itself. -/
theorem C4_plus_assign_vectors {α : Type} [Add α] [Sub α] [Mul α] [Div α]
    [Inhabited α] (ρ : Nat → List α) (a b n : Nat)
    (ha : (ρ a).length = n) (hb : (ρ b).length = n) :
    (∀ i, i < n → ((fvPlusAssign ρ a (Vexpr.var b) n).2 a).getD i default =
        (ρ a).getD i default + (ρ b).getD i default) ∧
      (fvPlusAssign ρ a (Vexpr.var b) n).1 = a := by
  constructor
  · intro i hi
    have h := plusAssignStep_getD_lt ρ a (Vexpr.var b) n i hi (by omega)
    simpa [Vexpr.evalE, fvPlusAssign] using h
  · rfl

/-- Claim C4, witness: `a = (1,2,3)`, `b = (4,5,6)`; after `a += b`,
`a[1] = 2 + 5` and in full `a = (5,7,9)`, and the returned reference is
`a`. -/
theorem C4_plus_assign_vectors_witness :
    ((fvPlusAssign (fun j => if j = 0 then [(1:Int),2,3] else [4,5,6]) 0
        (Vexpr.var 1) 3).2 0).getD 1 default =
      ((fun j => if j = 0 then [(1:Int),2,3] else [4,5,6]) 0).getD 1 default +
        ((fun j => if j = 0 then [(1:Int),2,3] else [4,5,6]) 1).getD 1 default ∧
      (fvPlusAssign (fun j => if j = 0 then [(1:Int),2,3] else [4,5,6]) 0
        (Vexpr.var 1) 3).1 = 0 ∧
      (fvPlusAssign (fun j => if j = 0 then [(1:Int),2,3] else [4,5,6]) 0
        (Vexpr.var 1) 3).2 0 = [5,7,9] :=
  ⟨(C4_plus_assign_vectors _ 0 1 3 (by decide) (by decide)).1 1 (by decide),
   (C4_plus_assign_vectors _ 0 1 3 (by decide) (by decide)).2,
   by decide⟩

/-- Claim C5: materializing the expression `a * s` yields at every index
`i < N` exactly `a[i] * s`, and the `scalar` wrapper answers every index
query, whatever the index, with its single stored value. -/
theorem C5_scalar_broadcast {α : Type} [Add α] [Sub α] [Mul α] [Div α]
    [Inhabited α] (ρ : Nat → List α) (ja d : Nat) (s : α) (n : Nat)
    (hn : (ρ d).length = n) :
    (∀ i, i < n → ((assignStep ρ d (fvMulScalar ja s) n) d).getD i default =
        (ρ ja).getD i default * s) ∧
      (∀ (t : scalar α) (i i' : Nat), t.get i = t.value ∧ t.get i = t.get i') := by
  constructor
  · intro i hi
    have h := assignStep_getD_lt ρ d (fvMulScalar ja s) n i hi (by omega)
    simpa [fvMulScalar, Vexpr.evalE, BinOp.apply, mul_binary_op,
      scalar.get] using h
  · intro t i i'
    exact ⟨rfl, rfl⟩

/-- Claim C5, witness: `a = (1,2,3)`; materializing `a * 2` back into `a`
gives `a[2] = 3 * 2` and in full `(2,4,6)`, and a `scalar` wrapping `7`
answers index 5 with `7`. -/
theorem C5_scalar_broadcast_witness :
    ((assignStep (fun _ => [(1:Int),2,3]) 0 (fvMulScalar 0 2) 3) 0).getD 2
        default =
      ((fun _ => [(1:Int),2,3]) 0).getD 2 default * 2 ∧
      (assignStep (fun _ => [(1:Int),2,3]) 0 (fvMulScalar 0 2) 3) 0 =
        [2,4,6] ∧
      (scalar.mk (7:Int)).get 5 = 7 :=
  ⟨(C5_scalar_broadcast _ 0 0 2 3 (by decide)).1 2 (by decide),
   by decide, by decide⟩

/-- Claim C6: the compound update `+=` is safe under same-index
self-reference: for an expression `e` that reads only the destination
vector and, like every expression of the component, only at the index
being queried, after `a += e` every index `i` of `a` holds the pre-update
`a[i]` plus `e` evaluated against the pre-update environment at `i` - the
read of index `i` happens before the write of index `i` within that
index's iteration. -/
theorem C6_self_reference_safe {α : Type} [Add α] [Sub α] [Mul α] [Div α]
    [Inhabited α] (ρ : Nat → List α) (d : Nat) (e : Vexpr α) (n : Nat)
    (hvars : ∀ j ∈ e.vars, j = d) (hn : (ρ d).length = n) :
    ∀ i, i < n → ((fvPlusAssign ρ d e n).2 d).getD i default =
      (ρ d).getD i default + e.evalE ρ i := fun i hi =>
  plusAssignStep_getD_lt ρ d e n i hi (by omega)

/-- Claim C6, witness: `a = (4,6)`; after `a += a * 2` (an expression
referencing `a` itself), `a[1] = 6 + 6 * 2` and in full `a = (12,18)`. -/
theorem C6_self_reference_safe_witness :
    ((fvPlusAssign (fun _ => [(4:Int),6]) 0 (fvMulScalar 0 2) 2).2 0).getD 1
        default =
      ((fun _ => [(4:Int),6]) 0).getD 1 default +
        Vexpr.evalE (fun _ => [(4:Int),6]) (fvMulScalar 0 2) 1 ∧
      (fvPlusAssign (fun _ => [(4:Int),6]) 0 (fvMulScalar 0 2) 2).2 0 =
        [12,18] :=
  ⟨C6_self_reference_safe _ 0 (fvMulScalar 0 2) 2 (by decide) (by decide)
      1 (by decide),
   by decide⟩

/-- Claim C7: `div_binary_op::apply` performs no zero-check and reports
no recoverable failure: it returns exactly the quotient `lhs / rhs`,
unconditionally; compared with a guarded, Option-returning embedding of
division, the error branch of the guard is taken exactly when the divisor
is zero, so under the caller's precondition `r ≠ 0` it is unreachable and
the guarded division agrees with the unchecked one. -/
theorem C7_divide_unchecked {α : Type} [Div α] [Zero α] [DecidableEq α]
    (l r : α) :
    div_binary_op l r = l / r ∧
      (divChecked l r = none ↔ r = 0) ∧
      (r ≠ 0 → divChecked l r = some (div_binary_op l r)) := by
  refine ⟨rfl, ?_, ?_⟩
  · unfold divChecked
    split <;> simp_all
  · intro hr
    unfold divChecked
    simp [hr]

/-- Claim C7, witness: at `l = 7`, `r = 2` over the integers, the divisor
is nonzero, the guard is not taken, and both divisions return `3`. -/
theorem C7_divide_unchecked_witness :
    divChecked (7:Int) 2 = some (div_binary_op 7 2) ∧
      div_binary_op (7:Int) 2 = 3 :=
  ⟨(C7_divide_unchecked (7:Int) 2).2.2 (by decide), by decide⟩

/-- Claim C8: evaluating an expression never mutates its operands: the
evaluator of `fast_vector_expr::operator[]` is `const` - embedded as the
pure function `Vexpr.evalE`, which returns a value and no state - and a
full materialization (by assignment or by `+=`) into a destination vector
writes only that destination: every other vector of the environment, in
particular every operand of an expression whose operands are distinct
from the destination, keeps exactly its prior storage. -/
theorem C8_eval_no_mutation {α : Type} [Add α] [Sub α] [Mul α] [Div α]
    [Inhabited α] (ρ : Nat → List α) (d : Nat) (e : Vexpr α) (n j : Nat)
    (hj : j ≠ d) :
    assignStep ρ d e n j = ρ j ∧ plusAssignStep ρ d e n j = ρ j :=
  ⟨assignStep_other ρ d e n j hj, plusAssignStep_other ρ d e n j hj⟩

/-- Claim C8, witness: materializing `b * 2` into `a` (vector 0) leaves
the operand `b` (vector 1) exactly as it was. -/
theorem C8_eval_no_mutation_witness :
    assignStep (fun j => if j = 0 then [(1:Int),2] else [9,9]) 0
        (fvMulScalar 1 2) 2 1 =
      (fun j => if j = 0 then [(1:Int),2] else [9,9]) 1 ∧
      plusAssignStep (fun j => if j = 0 then [(1:Int),2] else [9,9]) 0
        (fvMulScalar 1 2) 2 1 =
      (fun j => if j = 0 then [(1:Int),2] else [9,9]) 1 :=
  C8_eval_no_mutation _ 0 (fvMulScalar 1 2) 2 1 (by decide)

/-- Claim C9: assigning a plain scalar value directly to a vector
(`operator=(const T&)`, a `std::fill` over the owned storage) sets every
one of the `N` elements to that value and leaves the length unchanged. -/
theorem C9_scalar_fill_assign {α : Type} [Inhabited α] (a : List α)
    (value : α) :
    (fvFillAssign a value).length = a.length ∧
      ∀ i, i < a.length → (fvFillAssign a value).getD i default = value := by
  constructor
  · simp [fvFillAssign]
  · intro i hi
    rw [fvFillAssign, List.getD_eq_getElem _ _ (by simpa using hi)]
    simp

/-- Claim C9, witness: `a = (1,2,3)`; after `a = 7`, the length is still 3,
`a[1] = 7`, and in full `a = (7,7,7)`. -/
theorem C9_scalar_fill_assign_witness :
    (fvFillAssign [(1:Int),2,3] 7).length = 3 ∧
      (fvFillAssign [(1:Int),2,3] 7).getD 1 default = 7 ∧
      fvFillAssign [(1:Int),2,3] 7 = [7,7,7] :=
  ⟨(C9_scalar_fill_assign [(1:Int),2,3] 7).1,
   (C9_scalar_fill_assign [(1:Int),2,3] 7).2 1 (by decide),
   by decide⟩

/-- Claim C10: every `fast_vector` is non-empty - the class-scope
`static_assert(Rows > 0)` makes every inhabitant of `fast_vector α n`
carry `0 < n`, so `1 ≤ n` holds for every vector that exists and the
instantiation at length 0 is uninhabited. -/
theorem C10_no_zero_length (α : Type) (n : Nat) :
    (fast_vector α n → 1 ≤ n) ∧ ¬ Nonempty (fast_vector α 0) :=
  ⟨fun v => v.static_assert_rows,
   fun h => h.elim (fun v => Nat.lt_irrefl 0 v.static_assert_rows)⟩

/-- Claim C10, witness: a concrete `fast_vector Int 3` exists and forces
`1 ≤ 3`. -/
theorem C10_no_zero_length_witness : 1 ≤ 3 :=
  (C10_no_zero_length Int 3).1 ⟨by decide, [1, 2, 3], rfl⟩
